import Mathlib

/-!
Verification of the shader build scripts of `dynamic-rendering-vulkan`
(`scripts/compile_shaders.py` and `scripts/watch_compile.py`) against their
natural-language specification.

The Python code is shallowly embedded: external process invocations
(`glslc`, `spirv-opt`) are parameters giving their exit code and stderr text;
filesystem facts (existence of the output file, the two mtimes, the set of
files under a directory) are explicit fields; printing and directory creation
are recorded in explicit effect traces.  Timestamps are modelled as naturals
(only their order matters to the code).  The asyncio event loop of the watch
script is modelled as a timer queue processed in fire-time order, with the
external happenings (file-modified notifications, shutdown) serialized into a
timestamped event list.
-/

namespace ShaderScripts

/-- Embedding of the Python string method strip (no argument): remove leading and
trailing whitespace.  Stated over the character list so it reduces inside the
kernel. -/
def pyStrip (s : String) : String :=
  ⟨((s.data.dropWhile Char.isWhitespace).reverse.dropWhile
      Char.isWhitespace).reverse⟩

/-- Embedding of the Python string method lower for the ASCII range the scripts
compare against. -/
def pyLower (s : String) : String :=
  ⟨s.data.map Char.toLower⟩

/-- Embedding of the `*.spv` glob test used by `recompile_all`: whether a
file name ends with the given suffix.  Stated over character lists so it
reduces inside the kernel. -/
def pyEndsWith (s suffix : String) : Bool :=
  List.isPrefixOf suffix.data.reverse s.data.reverse

/-- Outcome of one external process run (`subprocess.run`): the exit code and
the captured stderr text. -/
structure ProcResult where
  returncode : Int
  stderr : String
deriving DecidableEq

/-- The inputs of `compile_shader` relevant to one job: the shader file name,
the `optimize` and `force` flags, and the filesystem facts the function reads,
namely whether `output_spv` exists and the two `st_mtime` values. -/
structure ShaderJob where
  name : String
  optimize : Bool
  force : Bool
  outputExists : Bool
  outputMtime : Nat
  sourceMtime : Nat
deriving DecidableEq

/-- The last two components of the tuple `compile_shader` returns:
`(shader_path, was_compiled, error)`.  Note that on a compiler or optimizer
failure the code returns `True` for `was_compiled` together with a nonempty
error string. -/
structure CompileResult where
  compiled : Bool
  error : String
deriving DecidableEq

/-- Side effects `compile_shader` performs, in order: the unconditional
`shader_binary_dir.mkdir(parents=True, exist_ok=True)`, the `glslc`
invocation, the stderr diagnostic printed inside `compile_shader` on a
compiler failure, and the `spirv-opt` invocation. -/
inductive Effect where
  | mkdirOutput
  | runGlslc
  | printStderrLine (msg : String)
  | runSpirvOpt
deriving DecidableEq

/-- Embedding of `compile_shader`.  The staleness check is
`not force and output_spv.exists() and output_mtime >= source_mtime`; when it
holds the job is skipped with compiled False and empty error.  Otherwise `glslc` runs; on a
nonzero exit code the stripped stderr is printed and returned as the error
(with `was_compiled = True`), and `spirv-opt` is never reached.  With a
successful compile, `spirv-opt` runs iff `optimize` was requested, and its
failure is reported as the error of the job; otherwise the result has compiled True and empty error.
The returned trace lists the side effects in program order. -/
def compile_shader (j : ShaderJob) (glslc spirvOpt : ProcResult) :
    CompileResult × List Effect :=
  if j.force = false ∧ j.outputExists = true ∧ j.sourceMtime ≤ j.outputMtime then
    (⟨false, ""⟩, [.mkdirOutput])
  else if glslc.returncode ≠ 0 then
    (⟨true, pyStrip glslc.stderr⟩,
      [.mkdirOutput, .runGlslc,
       .printStderrLine ("[Error] " ++ j.name ++ ": " ++ pyStrip glslc.stderr)])
  else if j.optimize = true then
    if spirvOpt.returncode ≠ 0 then
      (⟨true, pyStrip spirvOpt.stderr⟩, [.mkdirOutput, .runGlslc, .runSpirvOpt])
    else
      (⟨true, ""⟩, [.mkdirOutput, .runGlslc, .runSpirvOpt])
  else
    (⟨true, ""⟩, [.mkdirOutput, .runGlslc])

/-- The extension filter list `shader_extensions`. -/
def shader_extensions : List String := [".vert", ".frag", ".comp"]

/-- A file under the source root, as `find_shaders` sees it: its name and its
`pathlib` suffix. -/
structure SrcFile where
  name : String
  suffix : String
deriving DecidableEq

/-- The source root directory.  `present = false` models a missing or
unreadable root; `files` are the files `rglob` would enumerate when the root
is present. -/
structure SourceDir where
  present : Bool
  files : List SrcFile
deriving DecidableEq

/-- Embedding of the recursive glob over the source root.  The CPython pathlib glob
machinery returns an empty iterator for a nonexistent root
(`select_from` checks `is_dir()` first) and suppresses `PermissionError`
while scanning, so a missing or unreadable root silently enumerates nothing
rather than raising. -/
def rglob_all (d : SourceDir) : List SrcFile :=
  if d.present = true then d.files else []

/-- Embedding of `find_shaders`: keep the files whose suffix is in
`shader_extensions`. -/
def find_shaders (d : SourceDir) : List SrcFile :=
  (rglob_all d).filter (fun f => shader_extensions.contains f.suffix)

/-- One batch job together with the outcomes of the external processes it
would run. -/
structure JobSpec where
  job : ShaderJob
  glslc : ProcResult
  spirvOpt : ProcResult
deriving DecidableEq

/-- The result tuple of a batch job. -/
def jobResult (js : JobSpec) : CompileResult :=
  (compile_shader js.job js.glslc js.spirvOpt).1

/-- One printed line, tagged with the stream it goes to. -/
inductive Line where
  | out (s : String)
  | err (s : String)
deriving DecidableEq

/-- The status line `[i/total] Compiled|Up-to-date: name` printed for every
completed job. -/
def statusLine (i total : Nat) (r : CompileResult) (name : String) : String :=
  "[" ++ toString i ++ "/" ++ toString total ++ "] "
    ++ (if r.compiled = true then "Compiled" else "Up-to-date") ++ ": " ++ name

/-- The lines the body of the `as_completed` loop prints for the `i`-th
completed job: a stderr diagnostic when the job carries an error, then the
status line. -/
def jobReport (i total : Nat) (js : JobSpec) : List Line :=
  (if (jobResult js).error ≠ "" then
    [Line.err ("[Error] " ++ js.job.name ++ ": " ++ (jobResult js).error)]
   else []) ++ [Line.out (statusLine i total (jobResult js) js.job.name)]

/-- The `as_completed` loop of `compile_all_shaders`, with `i` counting from
`1`: the result of each future is reported independently of the others. -/
def batchLoop (total : Nat) : Nat → List JobSpec → List Line
  | _, [] => []
  | i, js :: rest => jobReport i total js ++ batchLoop total (i + 1) rest

/-- Embedding of `compile_all_shaders`, taking the jobs in completion order
(the order `as_completed` yields them; it is arbitrary, so theorems quantify
over it).  With zero shaders the function returns before creating the pool. -/
def compile_all_shaders (jobs : List JobSpec) : List Line :=
  if jobs.length = 0 then [] else batchLoop jobs.length 1 jobs

/-- Batch entry over a source directory: the jobs are the discovered shaders,
each paired with its process outcomes by `mkJob`. -/
def compile_all_shaders_dir (d : SourceDir) (mkJob : SrcFile → JobSpec) :
    List Line :=
  compile_all_shaders ((find_shaders d).map mkJob)

/-- Embedding of the top-level `main` of the script: it parses arguments, calls
`compile_all_shaders` (whose return type is `None`), and returns without ever
calling `sys.exit`, so the process exit status is `0` regardless of job
outcomes. -/
def shaderToolMain (jobs : List JobSpec) : List Line × Nat :=
  (compile_all_shaders jobs, 0)

/-- Projection keeping the stdout lines of a print trace. -/
def outLines : List Line → List String
  | [] => []
  | Line.out s :: rest => s :: outLines rest
  | Line.err _ :: rest => outLines rest

/-- The debounce window `DEBOUNCE_SECONDS = 0.3`, in milliseconds (time is
modelled in milliseconds so it stays integral). -/
def DEBOUNCE_MS : Nat := 300

/-- A `loop.call_later` timer created by `DebouncedCompiler.schedule`: its
identity, the shader path whose compile it will run, and the loop time at
which it is due. -/
structure Timer where
  tid : Nat
  path : String
  fireTime : Nat
deriving DecidableEq

/-- The state of the event loop of the watch script and `DebouncedCompiler`:
`live` is the queue of not-yet-fired, not-cancelled timers in creation
order; `tasks` is the `self._tasks` dict as an association list
(path ↦ timer id); `nextId` supplies fresh timer identities; `dispatched`
records, in order, each compile actually run by `_compile_sync` as the pair
(path, force flag passed to `compile_shader`). -/
structure DState where
  live : List Timer
  tasks : List (String × Nat)
  nextId : Nat
  dispatched : List (String × Bool)
deriving DecidableEq

/-- The initial state: no timers, empty dict. -/
def dInit : DState := ⟨[], [], 0, []⟩

/-- Embedding of `DebouncedCompiler.schedule` at loop time `now`: if `path`
has a pending timer it is cancelled (removed from the live queue), and a
fresh timer due at `now + DEBOUNCE_MS` replaces it in the dict. -/
def schedule (p : String) (now : Nat) (s : DState) : DState :=
  let live1 :=
    match s.tasks.lookup p with
    | some id => s.live.filter (fun tm => tm.tid ≠ id)
    | none => s.live
  { live := live1 ++ [⟨s.nextId, p, now + DEBOUNCE_MS⟩]
    tasks := (p, s.nextId) :: s.tasks.eraseP (fun e => e.1 == p)
    nextId := s.nextId + 1
    dispatched := s.dispatched }

/-- A timer firing: the loop removes it from its queue and runs
`_compile_sync`, which pops the dict entry of the path and then calls
`compile_shader` with `force=False`. -/
def fireTimer (tm : Timer) (s : DState) : DState :=
  { live := s.live.filter (fun t => t.tid ≠ tm.tid)
    tasks := s.tasks.eraseP (fun e => e.1 == tm.path)
    nextId := s.nextId
    dispatched := s.dispatched ++ [(tm.path, false)] }

/-- Embedding of `DebouncedCompiler.cancel_all`: every handle stored in the
dict is cancelled (its queued callback will never run) and the dict is
cleared. -/
def cancel_all (s : DState) : DState :=
  { live := s.live.filter (fun tm => ¬ (s.tasks.map Prod.snd).contains tm.tid)
    tasks := []
    nextId := s.nextId
    dispatched := s.dispatched }

/-- The next timer the loop would fire at time `now`: the live timer with the
least due time among those already due, earliest-created on a tie (asyncio
orders its heap by (when, creation counter)). -/
def firstDue (now : Nat) : List Timer → Option Timer
  | [] => none
  | tm :: rest =>
    match firstDue now rest with
    | none => if tm.fireTime ≤ now then some tm else none
    | some best =>
      if tm.fireTime ≤ now ∧ tm.fireTime ≤ best.fireTime then some tm
      else some best

/-- Fire every due timer, fuelled by the size of the live queue (each firing
removes the fired timer, so the queue shrinks). -/
def fireDueAux : Nat → Nat → DState → DState
  | 0, _, s => s
  | n + 1, now, s =>
    match firstDue now s.live with
    | none => s
    | some tm => fireDueAux n now (fireTimer tm s)

/-- Advance the loop clock to `now`, firing the timers that become due. -/
def advanceTo (now : Nat) (s : DState) : DState :=
  fireDueAux s.live.length now s

/-- The externally driven happenings, timestamped with the loop time at which
they are handled: a file-modified notification for a shader path (the
watchdog handler calls `schedule`), or the shutdown path calling
`cancel_all`. -/
inductive DEvent where
  | modified (p : String) (t : Nat)
  | cancelAllAt (t : Nat)
deriving DecidableEq

/-- Handle one event: due timers fire first (the loop reaches the event at
its time), then the handler of the event runs. -/
def stepEvent (s : DState) : DEvent → DState
  | .modified p t => schedule p t (advanceTo t s)
  | .cancelAllAt t => cancel_all (advanceTo t s)

/-- Run the watcher from the initial state over a serialized event list. -/
def runEvents (evs : List DEvent) : DState :=
  evs.foldl stepEvent dInit

/-- The stdin test in `monitor_user_input`:
a stripped, lowercased line equal to the letter r triggers a full recompilation. -/
def triggers_recompile (line : String) : Bool :=
  pyLower (pyStrip line) == "r"

/-- What `DebouncedCompiler.recompile_all` leaves behind: the timer state
(which the method never touches), the files remaining under the output
directory, and the `force` argument it passes to `compile_all_shaders`. -/
structure RecompileOutcome where
  timers : DState
  outputFiles : List String
  forcedBatch : Bool
deriving DecidableEq

/-- Embedding of `DebouncedCompiler.recompile_all` on timer state `s` with
`outFiles` currently under the output directory: it unlinks every `*.spv`
file found by `rglob` and calls `compile_all_shaders(..., force=True)`; it
performs no operation on `self._tasks` or the pending timer handles. -/
def recompile_all (s : DState) (outFiles : List String) : RecompileOutcome :=
  { timers := s
    outputFiles := outFiles.filter (fun f => !(pyEndsWith f ".spv"))
    forcedBatch := true }

/-- The SIGINT/SIGTERM handler `handle_exit`: it sets the shared stop flag. -/
def handle_exit (stopFlag : Bool) : Bool :=
  let _ := stopFlag
  true

/-- Completion time of `await asyncio.gather(stop_event.wait(), input task,
status task)`: `gather` resolves when ALL of its awaitables have completed,
so the shutdown code after it runs at the latest of the three completion
times. -/
def gather3 (a b c : Nat) : Nat := max a (max b c)

/-- Association-list fact: a pair found by `lookup` is a member. -/
theorem lookup_mem {l : List (String × Nat)} {k : String} {v : Nat}
    (h : l.lookup k = some v) : (k, v) ∈ l := by
  rcases List.lookup_eq_some_iff.mp h with ⟨l₁, l₂, rfl, -⟩
  simp

/-- Erasing the entry of another key does not change a lookup. -/
theorem lookup_eraseP_ne {l : List (String × Nat)} {k p : String}
    (hk : k ≠ p) : (l.eraseP (fun e => e.1 == p)).lookup k = l.lookup k := by
  induction l with
  | nil => rfl
  | cons e rest ih =>
    rcases e with ⟨a, b⟩
    by_cases hap : a = p
    · subst hap
      rw [List.eraseP_cons_of_pos (by simp), List.lookup_cons]
      have hka : (k == a) = false := by simpa using hk
      simp [hka]
    · rw [List.eraseP_cons_of_neg (by simpa using hap), List.lookup_cons,
        List.lookup_cons]
      cases hka : (k == a) <;> simp [ih]

/-- With duplicate-free keys, erasing the entry of a key makes its lookup fail. -/
theorem lookup_eraseP_self {l : List (String × Nat)} {p : String}
    (h : (l.map Prod.fst).Nodup) :
    (l.eraseP (fun e => e.1 == p)).lookup p = none := by
  induction l with
  | nil => rfl
  | cons e rest ih =>
    rcases e with ⟨a, b⟩
    rw [List.map_cons, List.nodup_cons] at h
    by_cases hap : a = p
    · subst hap
      rw [List.eraseP_cons_of_pos (by simp)]
      rw [List.lookup_eq_none_iff]
      intro q hq
      have : q.1 ∈ rest.map Prod.fst := List.mem_map_of_mem Prod.fst hq
      have hne : a ≠ q.1 := fun hh => h.1 (hh ▸ this)
      simpa using hne
    · rw [List.eraseP_cons_of_neg (by simpa using hap), List.lookup_cons]
      have hpa : (p == a) = false := by simpa using fun hh => hap hh.symm
      simp [hpa, ih h.2]

/-- A duplicate-free list of naturals whose elements are all equal has at
most one element. -/
theorem length_le_one_of_nodup_const {l : List Nat} {v : Nat}
    (hn : l.Nodup) (hc : ∀ x ∈ l, x = v) : l.length ≤ 1 := by
  cases l with
  | nil => simp
  | cons a t =>
    cases t with
    | nil => simp
    | cons b u =>
      exfalso
      have ha := hc a (by simp)
      have hb := hc b (by simp)
      rw [List.nodup_cons] at hn
      exact hn.1 (by simp [ha, hb])

/-- The reachability invariant of the debounce state: every live timer is the
one named by the dict entry of its path; live timer ids are duplicate-free; dict
keys and dict values are duplicate-free; dict values are below the fresh-id
counter; and every dispatched compile was invoked with `force = false`. -/
def Inv (s : DState) : Prop :=
  (∀ tm ∈ s.live, s.tasks.lookup tm.path = some tm.tid) ∧
  (s.live.map Timer.tid).Nodup ∧
  (s.tasks.map Prod.fst).Nodup ∧
  (s.tasks.map Prod.snd).Nodup ∧
  (∀ e ∈ s.tasks, e.2 < s.nextId) ∧
  (∀ pr ∈ s.dispatched, pr.2 = false)

theorem inv_dInit : Inv dInit := by
  refine ⟨?_, ?_, ?_, ?_, ?_, ?_⟩ <;> simp [dInit]

theorem inv_schedule {s : DState} (p : String) (now : Nat) (h : Inv s) :
    Inv (schedule p now s) := by
  obtain ⟨h1, h2, h3, h4, h5, h6⟩ := h
  have hLiveLt : ∀ tm ∈ s.live, tm.tid < s.nextId := by
    intro tm htm
    exact h5 _ (lookup_mem (h1 tm htm))
  unfold schedule
  cases hl : s.tasks.lookup p with
  | none =>
    dsimp only
    have hnotkey : ∀ e ∈ s.tasks, p ≠ e.1 := by
      intro e he
      have := List.lookup_eq_none_iff.mp hl e he
      simpa using this
    have herase : s.tasks.eraseP (fun e => e.1 == p) = s.tasks := by
      rw [List.eraseP_eq_self_iff]
      intro e he
      simpa using fun hh => hnotkey e he hh.symm
    rw [herase]
    refine ⟨?_, ?_, ?_, ?_, ?_, ?_⟩
    · intro tm htm
      rcases List.mem_append.mp htm with hmem | hnew
      · have hne : tm.path ≠ p := by
          intro hh
          rw [← hh] at hl
          rw [h1 tm hmem] at hl
          cases hl
        rw [List.lookup_cons]
        have : (tm.path == p) = false := by simpa using hne
        simp only [this]
        exact h1 tm hmem
      · have : tm = ⟨s.nextId, p, now + DEBOUNCE_MS⟩ := by simpa using hnew
        subst this
        simp
    · rw [List.map_append]
      rw [List.nodup_append]
      refine ⟨h2, by simp, ?_⟩
      intro x hx
      have : x < s.nextId := by
        rcases List.mem_map.mp hx with ⟨tm, htm, rfl⟩
        exact hLiveLt tm htm
      simp
      omega
    · rw [List.map_cons, List.nodup_cons]
      refine ⟨?_, h3⟩
      intro hp
      rcases List.mem_map.mp hp with ⟨e, he, hpe⟩
      exact hnotkey e he hpe.symm
    · rw [List.map_cons, List.nodup_cons]
      refine ⟨?_, h4⟩
      intro hp
      rcases List.mem_map.mp hp with ⟨e, he, hpe⟩
      have := h5 e he
      omega
    · intro e he
      rcases List.mem_cons.mp he with rfl | he'
      · simp
      · have := h5 e he'
        show e.2 < s.nextId + 1
        omega
    · exact h6
  | some id =>
    dsimp only
    refine ⟨?_, ?_, ?_, ?_, ?_, ?_⟩
    · intro tm htm
      rcases List.mem_append.mp htm with hmem | hnew
      · have hfil := List.mem_filter.mp hmem
        have htid : tm.tid ≠ id := by simpa using hfil.2
        have hne : tm.path ≠ p := by
          intro hh
          have hlk := h1 tm hfil.1
          rw [hh, hl] at hlk
          injection hlk with hv
          exact htid hv.symm
        rw [List.lookup_cons]
        have : (tm.path == p) = false := by simpa using hne
        simp only [this]
        rw [lookup_eraseP_ne hne]
        exact h1 tm hfil.1
      · have : tm = ⟨s.nextId, p, now + DEBOUNCE_MS⟩ := by simpa using hnew
        subst this
        simp
    · rw [List.map_append]
      rw [List.nodup_append]
      refine ⟨((List.filter_sublist _).map _).nodup h2, by simp, ?_⟩
      intro x hx
      have : x < s.nextId := by
        rcases List.mem_map.mp hx with ⟨tm, htm, rfl⟩
        exact hLiveLt tm (List.mem_of_mem_filter htm)
      simp
      omega
    · rw [List.map_cons, List.nodup_cons]
      refine ⟨?_, ((List.eraseP_sublist _).map _).nodup h3⟩
      intro hp
      rcases List.mem_map.mp hp with ⟨e, he, hpe⟩
      have hlook := lookup_eraseP_self (l := s.tasks) (p := p) h3
      have : p ≠ e.1 := by
        have := List.lookup_eq_none_iff.mp hlook e he
        simpa using this
      exact this hpe.symm
    · rw [List.map_cons, List.nodup_cons]
      refine ⟨?_, ((List.eraseP_sublist _).map _).nodup h4⟩
      intro hp
      rcases List.mem_map.mp hp with ⟨e, he, hpe⟩
      have := h5 e (List.mem_of_mem_eraseP he)
      omega
    · intro e he
      rcases List.mem_cons.mp he with rfl | he'
      · simp
      · have := h5 e (List.mem_of_mem_eraseP he')
        show e.2 < s.nextId + 1
        omega
    · exact h6

theorem inv_fireTimer {s : DState} {tm : Timer} (h : Inv s)
    (htm : tm ∈ s.live) : Inv (fireTimer tm s) := by
  obtain ⟨h1, h2, h3, h4, h5, h6⟩ := h
  refine ⟨?_, ?_, ?_, ?_, ?_, ?_⟩
  · intro t ht
    have hfil := List.mem_filter.mp ht
    have htid : t.tid ≠ tm.tid := by simpa using hfil.2
    have hne : t.path ≠ tm.path := by
      intro hh
      have ha := h1 t hfil.1
      have hb := h1 tm htm
      rw [hh, hb] at ha
      injection ha with hv
      exact htid hv.symm
    show (s.tasks.eraseP _).lookup t.path = some t.tid
    rw [lookup_eraseP_ne hne]
    exact h1 t hfil.1
  · exact ((List.filter_sublist _).map _).nodup h2
  · exact ((List.eraseP_sublist _).map _).nodup h3
  · exact ((List.eraseP_sublist _).map _).nodup h4
  · intro e he
    exact h5 e (List.mem_of_mem_eraseP he)
  · intro pr hpr
    rcases List.mem_append.mp hpr with hmem | hnew
    · exact h6 pr hmem
    · simp at hnew
      rw [hnew]

/-- Under the invariant, `cancel_all` cancels every live timer: none
survives the filter. -/
theorem cancel_all_live_nil {s : DState}
    (h1 : ∀ tm ∈ s.live, s.tasks.lookup tm.path = some tm.tid) :
    (cancel_all s).live = [] := by
  show s.live.filter _ = []
  rw [List.filter_eq_nil_iff]
  intro tm htm
  simp [List.contains, List.elem_iff]
  exact ⟨tm.path, lookup_mem (h1 tm htm)⟩

theorem inv_cancel_all {s : DState} (h : Inv s) : Inv (cancel_all s) := by
  obtain ⟨h1, h2, h3, h4, h5, h6⟩ := h
  have hlive : (cancel_all s).live = [] := cancel_all_live_nil h1
  refine ⟨?_, ?_, ?_, ?_, ?_, ?_⟩
  · rw [hlive]
    intro tm htm
    cases htm
  · rw [hlive]
    simp
  · simp [cancel_all]
  · simp [cancel_all]
  · simp [cancel_all]
  · exact h6

theorem firstDue_mem {now : Nat} :
    ∀ {l : List Timer} {tm : Timer}, firstDue now l = some tm → tm ∈ l := by
  intro l
  induction l with
  | nil =>
    intro tm h
    simp [firstDue] at h
  | cons a rest ih =>
    intro tm h
    rw [firstDue] at h
    split at h
    next hr =>
      split at h
      · injection h with h
        exact h ▸ List.mem_cons_self a rest
      · cases h
    next best hr =>
      split at h
      · injection h with h
        exact h ▸ List.mem_cons_self a rest
      · injection h with h
        exact h ▸ List.mem_cons_of_mem a (ih hr)

theorem inv_fireDueAux {n now : Nat} :
    ∀ {s : DState}, Inv s → Inv (fireDueAux n now s) := by
  induction n with
  | zero =>
    intro s hs
    exact hs
  | succ n ih =>
    intro s hs
    rw [fireDueAux]
    cases hfd : firstDue now s.live with
    | none => exact hs
    | some tm => exact ih (inv_fireTimer hs (firstDue_mem hfd))

theorem inv_advanceTo {now : Nat} {s : DState} (h : Inv s) :
    Inv (advanceTo now s) :=
  inv_fireDueAux h

theorem inv_stepEvent {s : DState} (h : Inv s) (e : DEvent) :
    Inv (stepEvent s e) := by
  cases e with
  | modified p t => exact inv_schedule p t (inv_advanceTo h)
  | cancelAllAt t => exact inv_cancel_all (inv_advanceTo h)

theorem inv_foldl (evs : List DEvent) :
    ∀ {s : DState}, Inv s → Inv (evs.foldl stepEvent s) := by
  induction evs with
  | nil =>
    intro s hs
    exact hs
  | cons e rest ih =>
    intro s hs
    exact ih (inv_stepEvent hs e)

theorem inv_runEvents (evs : List DEvent) : Inv (runEvents evs) :=
  inv_foldl evs inv_dInit

/-- Under the invariant, a path has at most one live timer. -/
theorem atMostOne_of_inv {s : DState} (h : Inv s) (p : String) :
    (s.live.filter (fun tm => tm.path == p)).length ≤ 1 := by
  obtain ⟨h1, h2, -, -, -, -⟩ := h
  have hnod : ((s.live.filter (fun tm => tm.path == p)).map Timer.tid).Nodup :=
    ((List.filter_sublist _).map _).nodup h2
  cases hcase : s.live.filter (fun tm => tm.path == p) with
  | nil => simp
  | cons a t =>
    have hmem : ∀ tm ∈ s.live.filter (fun tm => tm.path == p),
        s.tasks.lookup p = some tm.tid := by
      intro tm htm
      have hfil := List.mem_filter.mp htm
      have hp : tm.path = p := by simpa using hfil.2
      exact hp ▸ h1 tm hfil.1
    have hamem : a ∈ s.live.filter (fun tm => tm.path == p) := by
      rw [hcase]
      exact List.mem_cons_self a t
    have hconst : ∀ x ∈ (s.live.filter (fun tm => tm.path == p)).map Timer.tid,
        x = a.tid := by
      intro x hx
      rcases List.mem_map.mp hx with ⟨tm, htm, rfl⟩
      have ha := hmem a hamem
      have hb := hmem tm htm
      rw [ha] at hb
      injection hb with hb
      exact hb.symm
    simpa [hcase] using length_le_one_of_nodup_const hnod hconst

/-- A state holding a single pending timer for `p` that is not yet due fires
nothing when the clock advances to `now`. -/
theorem advanceTo_single_not_due {s : DState} {i f now : Nat} {p : String}
    (hlive : s.live = [⟨i, p, f⟩]) (hnd : now < f) :
    advanceTo now s = s := by
  have hlen : s.live.length = 1 := by rw [hlive]; rfl
  rw [advanceTo, hlen, fireDueAux]
  have hfd : firstDue now s.live = none := by
    rw [hlive, firstDue, firstDue]
    have : ¬ (⟨i, p, f⟩ : Timer).fireTime ≤ now := by
      show ¬ f ≤ now
      omega
    simp [this]
  rw [hfd]

/-- Scheduling `p` in a state whose only pending timer belongs to `p` cancels and
replaces it: the result again holds a single timer for `p`, now due at
`now + DEBOUNCE_MS`, and nothing was dispatched. -/
theorem schedule_replaces_single {s : DState} {i f : Nat} {p : String}
    (hlive : s.live = [⟨i, p, f⟩]) (htasks : s.tasks = [(p, i)]) (now : Nat) :
    schedule p now s =
      { live := [⟨s.nextId, p, now + DEBOUNCE_MS⟩]
        tasks := [(p, s.nextId)]
        nextId := s.nextId + 1
        dispatched := s.dispatched } := by
  unfold schedule
  rw [htasks, hlive]
  simp

/-- While every incoming change arrives before the pending timer is due, a
chain of `modified p` events keeps exactly one pending timer for `p`,
replacing it each time, and dispatches no compile. -/
theorem sched_chain (p : String) (t0 : Nat) :
    ∀ (ts : List Nat) (s : DState) (i f : Nat),
      s.live = [⟨i, p, f⟩] → s.tasks = [(p, i)] →
      t0 + DEBOUNCE_MS ≤ f → f ≤ t0 + 2 * DEBOUNCE_MS →
      (∀ t ∈ ts, t0 ≤ t ∧ t < t0 + DEBOUNCE_MS) →
      ∃ i' f',
        ((ts.map (DEvent.modified p)).foldl stepEvent s).live = [⟨i', p, f'⟩] ∧
        ((ts.map (DEvent.modified p)).foldl stepEvent s).tasks = [(p, i')] ∧
        ((ts.map (DEvent.modified p)).foldl stepEvent s).dispatched
          = s.dispatched ∧
        t0 + DEBOUNCE_MS ≤ f' ∧ f' ≤ t0 + 2 * DEBOUNCE_MS := by
  intro ts
  induction ts with
  | nil =>
    intro s i f hlive htasks hf1 hf2 hts
    exact ⟨i, f, hlive, htasks, rfl, hf1, hf2⟩
  | cons t rest ih =>
    intro s i f hlive htasks hf1 hf2 hts
    have ht := hts t (List.mem_cons_self t rest)
    have hadv : advanceTo t s = s :=
      advanceTo_single_not_due hlive (by omega)
    have hstep : stepEvent s (DEvent.modified p t) =
        { live := [⟨s.nextId, p, t + DEBOUNCE_MS⟩]
          tasks := [(p, s.nextId)]
          nextId := s.nextId + 1
          dispatched := s.dispatched } := by
      show schedule p t (advanceTo t s) = _
      rw [hadv]
      exact schedule_replaces_single hlive htasks t
    rw [List.map_cons, List.foldl_cons, hstep]
    obtain ⟨i', f', hl', htk', hd', hb1, hb2⟩ :=
      ih { live := [⟨s.nextId, p, t + DEBOUNCE_MS⟩]
           tasks := [(p, s.nextId)]
           nextId := s.nextId + 1
           dispatched := s.dispatched }
        s.nextId (t + DEBOUNCE_MS) rfl rfl (by omega) (by omega)
        (fun u hu => hts u (List.mem_cons_of_mem t hu))
    exact ⟨i', f', hl', htk', hd', hb1, hb2⟩

/-- A burst of rapid `modified p` events starting at `t0`, all within the
debounce window of `t0`, dispatches exactly one compile for `p` (with
`force = false`) once the clock passes the due time of the last timer. -/
theorem rapid_burst_single_dispatch (p : String) (t0 : Nat) (rest : List Nat)
    (h : ∀ t ∈ rest, t0 ≤ t ∧ t < t0 + DEBOUNCE_MS) :
    (advanceTo (t0 + 2 * DEBOUNCE_MS)
      (runEvents ((t0 :: rest).map (DEvent.modified p)))).dispatched
      = [(p, false)] := by
  have h1 : stepEvent dInit (DEvent.modified p t0) =
      { live := [⟨0, p, t0 + DEBOUNCE_MS⟩]
        tasks := [(p, 0)]
        nextId := 1
        dispatched := [] } := by
    show schedule p t0 (advanceTo t0 dInit) = _
    have hadv : advanceTo t0 dInit = dInit := rfl
    rw [hadv]
    unfold schedule dInit
    simp
  rw [runEvents, List.map_cons, List.foldl_cons, h1]
  obtain ⟨i', f', hlive, htasks, hdisp, hb1, hb2⟩ :=
    sched_chain p t0 rest
      { live := [⟨0, p, t0 + DEBOUNCE_MS⟩], tasks := [(p, 0)], nextId := 1,
        dispatched := [] }
      0 (t0 + DEBOUNCE_MS) rfl rfl (le_refl _) (by omega) h
  have hlen :
      ((rest.map (DEvent.modified p)).foldl stepEvent
        { live := [⟨0, p, t0 + DEBOUNCE_MS⟩], tasks := [(p, 0)], nextId := 1,
          dispatched := [] }).live.length = 1 := by
    rw [hlive]; rfl
  rw [advanceTo, hlen, fireDueAux]
  have hfd : firstDue (t0 + 2 * DEBOUNCE_MS)
      ((rest.map (DEvent.modified p)).foldl stepEvent
        { live := [⟨0, p, t0 + DEBOUNCE_MS⟩], tasks := [(p, 0)], nextId := 1,
          dispatched := [] }).live = some ⟨i', p, f'⟩ := by
    rw [hlive, firstDue, firstDue]
    have : (⟨i', p, f'⟩ : Timer).fireTime ≤ t0 + 2 * DEBOUNCE_MS := by
      show f' ≤ t0 + 2 * DEBOUNCE_MS
      omega
    simp [this]
  rw [hfd]
  show ((rest.map (DEvent.modified p)).foldl stepEvent
      { live := [⟨0, p, t0 + DEBOUNCE_MS⟩], tasks := [(p, 0)], nextId := 1,
        dispatched := [] }).dispatched ++ [(p, false)] = [(p, false)]
  rw [hdisp]
  rfl

/-- The stdout projection distributes over appended print traces. -/
theorem outLines_append (l1 l2 : List Line) :
    outLines (l1 ++ l2) = outLines l1 ++ outLines l2 := by
  induction l1 with
  | nil => rfl
  | cons a rest ih =>
    cases a with
    | out s => simp [outLines, ih]
    | err s => simp [outLines, ih]

/-- Whatever the outcome of a job, its report contains exactly one stdout line:
the status line. -/
theorem outLines_jobReport (i total : Nat) (js : JobSpec) :
    outLines (jobReport i total js)
      = [statusLine i total (jobResult js) js.job.name] := by
  rw [jobReport]
  by_cases he : (jobResult js).error ≠ ""
  · rw [if_pos he, outLines_append]
    rfl
  · rw [if_neg he]
    rfl

/-- The stdout lines of the batch loop are exactly one status line per job,
in completion order, numbered consecutively from `i`. -/
theorem outLines_batchLoop (total : Nat) :
    ∀ (jobs : List JobSpec) (i : Nat),
      outLines (batchLoop total i jobs)
        = (jobs.enumFrom i).map
            (fun pr => statusLine pr.1 total (jobResult pr.2) pr.2.job.name) := by
  intro jobs
  induction jobs with
  | nil => intro i; rfl
  | cons js rest ih =>
    intro i
    rw [batchLoop, outLines_append, outLines_jobReport, List.enumFrom,
      List.map_cons, ih (i + 1)]
    rfl

/-- The stderr diagnostic line of a failed job is printed by the batch loop,
whatever the other jobs do. -/
theorem errLine_mem_batchLoop (total : Nat) :
    ∀ (jobs : List JobSpec) (i : Nat) (pr : Nat × JobSpec),
      pr ∈ jobs.enumFrom i → (jobResult pr.2).error ≠ "" →
      Line.err ("[Error] " ++ pr.2.job.name ++ ": " ++ (jobResult pr.2).error)
        ∈ batchLoop total i jobs := by
  intro jobs
  induction jobs with
  | nil =>
    intro i pr hpr
    simp [List.enumFrom] at hpr
  | cons js rest ih =>
    intro i pr hpr herr
    rw [List.enumFrom] at hpr
    rw [batchLoop]
    rcases List.mem_cons.mp hpr with rfl | htail
    · apply List.mem_append_left
      rw [jobReport, if_pos herr]
      exact List.mem_cons_self _ _
    · exact List.mem_append_right _ (ih (i + 1) pr htail herr)

/-- Claim C1: a compile attempt (`glslc` invocation) is made iff the force
flag is set, the output file does not exist, or the source mtime strictly
exceeds the output mtime; in particular equal timestamps (no force, output
present) skip the job with `compiled = false` and an empty error. -/
theorem c1_staleness_decision (j : ShaderJob) (g o : ProcResult) :
    (Effect.runGlslc ∈ (compile_shader j g o).2 ↔
      (j.force = true ∨ j.outputExists = false ∨
        j.outputMtime < j.sourceMtime)) ∧
    (j.force = false → j.outputExists = true →
      j.outputMtime = j.sourceMtime →
      (compile_shader j g o).1 = ⟨false, ""⟩) := by
  constructor
  · constructor
    · intro hmem
      by_contra hno
      push_neg at hno
      obtain ⟨hf, he, hm⟩ := hno
      have hff : j.force = false := by simpa using hf
      have hee : j.outputExists = true := by simpa using he
      have hmm : j.sourceMtime ≤ j.outputMtime := by omega
      unfold compile_shader at hmem
      rw [if_pos ⟨hff, hee, hmm⟩] at hmem
      simp at hmem
    · intro hrhs
      have hc : ¬ (j.force = false ∧ j.outputExists = true ∧
          j.sourceMtime ≤ j.outputMtime) := by
        rcases hrhs with hx | hx | hx
        · rintro ⟨hy, -, -⟩
          rw [hx] at hy
          cases hy
        · rintro ⟨-, hy, -⟩
          rw [hx] at hy
          cases hy
        · rintro ⟨-, -, hy⟩
          omega
      unfold compile_shader
      rw [if_neg hc]
      split_ifs <;> simp
  · intro h1 h2 h3
    unfold compile_shader
    rw [if_pos ⟨h1, h2, by omega⟩]

/-- Witness for C1: with equal timestamps (mtime 7 on both sides), no force
and an existing output, the job is skipped as `(False, ...)`. -/
theorem c1_staleness_decision_witness :
    (compile_shader ⟨"eq.vert", false, false, true, 7, 7⟩ ⟨0, ""⟩
      ⟨0, ""⟩).1 = ⟨false, ""⟩ :=
  (c1_staleness_decision ⟨"eq.vert", false, false, true, 7, 7⟩ ⟨0, ""⟩
    ⟨0, ""⟩).2 rfl rfl rfl

/-- Claim C2: at most one live timer per path in every reachable state; a
burst of rapid changes on one path dispatches exactly one compile; the dict
entry is removed when the timer fires; `cancel_all` clears the dict. -/
theorem c2_debounce_at_most_one_timer :
    (∀ (evs : List DEvent) (p : String),
      ((runEvents evs).live.filter (fun tm => tm.path == p)).length ≤ 1) ∧
    (∀ (p : String) (t0 : Nat) (rest : List Nat),
      (∀ t ∈ rest, t0 ≤ t ∧ t < t0 + DEBOUNCE_MS) →
      (advanceTo (t0 + 2 * DEBOUNCE_MS)
        (runEvents ((t0 :: rest).map (DEvent.modified p)))).dispatched
        = [(p, false)]) ∧
    (∀ (evs : List DEvent) (tm : Timer), tm ∈ (runEvents evs).live →
      (fireTimer tm (runEvents evs)).tasks.lookup tm.path = none) ∧
    (∀ s : DState, (cancel_all s).tasks = []) := by
  refine ⟨?_, ?_, ?_, ?_⟩
  · intro evs p
    exact atMostOne_of_inv (inv_runEvents evs) p
  · intro p t0 rest h
    exact rapid_burst_single_dispatch p t0 rest h
  · intro evs tm htm
    exact lookup_eraseP_self ((inv_runEvents evs).2).2.1
  · intro s
    rfl

/-- Witness for C2: three changes to `a.vert` at 0ms, 100ms and 250ms — all
within one debounce window — dispatch exactly one unforced compile; firing
the pending timer removes the dict entry. -/
theorem c2_debounce_at_most_one_timer_witness :
    (advanceTo (0 + 2 * DEBOUNCE_MS)
      (runEvents (((0 : Nat) :: [100, 250]).map
        (DEvent.modified "a.vert")))).dispatched = [("a.vert", false)] ∧
    (fireTimer ⟨0, "a.vert", 0 + DEBOUNCE_MS⟩
      (runEvents [DEvent.modified "a.vert" 0])).tasks.lookup "a.vert"
      = none :=
  ⟨c2_debounce_at_most_one_timer.2.1 "a.vert" 0 [100, 250] (by decide),
   c2_debounce_at_most_one_timer.2.2.1 [DEvent.modified "a.vert" 0]
     ⟨0, "a.vert", 0 + DEBOUNCE_MS⟩ (by decide)⟩

/-- Counterexample to C3: a batch containing a failed job (the compiler
exited 1, so the job carries a nonempty error) still leaves the process exit
status 0 — `compile_all_shaders` returns `None` and `main` never calls
`sys.exit`. -/
theorem c3_exit_zero_despite_failure :
    (jobResult ⟨⟨"bad.vert", false, false, false, 0, 0⟩, ⟨1, "boom"⟩,
      ⟨0, ""⟩⟩).error ≠ "" ∧
    (shaderToolMain [⟨⟨"bad.vert", false, false, false, 0, 0⟩, ⟨1, "boom"⟩,
      ⟨0, ""⟩⟩]).2 = 0 := by
  constructor
  · decide
  · rfl

/-- Claim C3 (amended): the exit status of the standalone command is 0 regardless
of job outcomes — even when some job in the batch reported a compile or
optimize error, no non-zero status is produced. -/
theorem c3_exit_status_always_zero (jobs : List JobSpec) (js : JobSpec)
    (_hmem : js ∈ jobs) (_hfail : (jobResult js).error ≠ "") :
    (shaderToolMain jobs).2 = 0 := rfl

/-- Witness for C3 (amended): a concrete one-job batch whose job failed. -/
theorem c3_exit_status_always_zero_witness :
    (shaderToolMain [⟨⟨"bad.vert", false, false, false, 0, 0⟩, ⟨1, "boom"⟩,
      ⟨0, ""⟩⟩]).2 = 0 :=
  c3_exit_status_always_zero
    [⟨⟨"bad.vert", false, false, false, 0, 0⟩, ⟨1, "boom"⟩, ⟨0, ""⟩⟩]
    ⟨⟨"bad.vert", false, false, false, 0, 0⟩, ⟨1, "boom"⟩, ⟨0, ""⟩⟩
    (by decide) (by decide)

/-- Claim C4: for a stale job, a failing compiler yields its stripped stderr
as the error and the optimizer is never invoked; a failing optimizer after a
successful compile yields the stderr of the optimizer as the error; a successful
compile with no optimization or successful optimization yields
`(True, ...empty...)`. -/
theorem c4_stale_job_error_paths (j : ShaderJob) (g o : ProcResult)
    (hstale : ¬ (j.force = false ∧ j.outputExists = true ∧
      j.sourceMtime ≤ j.outputMtime)) :
    (g.returncode ≠ 0 →
      (compile_shader j g o).1.error = pyStrip g.stderr ∧
      Effect.runSpirvOpt ∉ (compile_shader j g o).2) ∧
    (g.returncode = 0 → j.optimize = true → o.returncode ≠ 0 →
      (compile_shader j g o).1.error = pyStrip o.stderr) ∧
    (g.returncode = 0 → (j.optimize = false ∨ o.returncode = 0) →
      (compile_shader j g o).1 = ⟨true, ""⟩) := by
  unfold compile_shader
  rw [if_neg hstale]
  refine ⟨?_, ?_, ?_⟩
  · intro hg
    rw [if_pos hg]
    constructor
    · rfl
    · simp
  · intro hg hopt ho
    rw [if_neg (by simp [hg] : ¬ g.returncode ≠ 0), if_pos hopt, if_pos ho]
  · intro hg hcase
    rw [if_neg (by simp [hg] : ¬ g.returncode ≠ 0)]
    rcases hcase with hx | hx
    · rw [if_neg (by simp [hx] : ¬ j.optimize = true)]
    · by_cases hopt : j.optimize = true
      · rw [if_pos hopt, if_neg (by simp [hx] : ¬ o.returncode ≠ 0)]
      · rw [if_neg hopt]

/-- Witness for C4: a forced job whose compiler exits 1 with stderr
`..bad..` carries the stripped text as its error and never reaches the
optimizer. -/
theorem c4_stale_job_error_paths_witness :
    (compile_shader ⟨"w.vert", true, true, false, 0, 0⟩ ⟨1, " bad "⟩
      ⟨0, ""⟩).1.error = pyStrip " bad " ∧
    Effect.runSpirvOpt ∉
      (compile_shader ⟨"w.vert", true, true, false, 0, 0⟩ ⟨1, " bad "⟩
        ⟨0, ""⟩).2 :=
  (c4_stale_job_error_paths ⟨"w.vert", true, true, false, 0, 0⟩ ⟨1, " bad "⟩
    ⟨0, ""⟩ (by decide)).1 (by decide)

/-- Claim C5: the batch prints exactly one status line per job, tagged with
the running `i/total` counter in completion order, regardless of failures
elsewhere in the batch; every failed job additionally gets a stderr
diagnostic line. -/
theorem c5_batch_report_lines (jobs : List JobSpec) :
    (outLines (compile_all_shaders jobs)
      = (jobs.enumFrom 1).map
          (fun pr => statusLine pr.1 jobs.length (jobResult pr.2)
            pr.2.job.name)) ∧
    (∀ pr ∈ jobs.enumFrom 1, (jobResult pr.2).error ≠ "" →
      Line.err ("[Error] " ++ pr.2.job.name ++ ": " ++ (jobResult pr.2).error)
        ∈ compile_all_shaders jobs) := by
  unfold compile_all_shaders
  by_cases hz : jobs.length = 0
  · have hnil : jobs = [] := List.length_eq_zero.mp hz
    subst hnil
    constructor
    · rfl
    · intro pr hpr
      simp [List.enumFrom] at hpr
  · rw [if_neg hz]
    constructor
    · exact outLines_batchLoop jobs.length jobs 1
    · intro pr hpr herr
      exact errLine_mem_batchLoop jobs.length jobs 1 pr hpr herr

/-- Witness for C5: a one-job batch whose job failed prints the diagnostic
stderr line. -/
theorem c5_batch_report_lines_witness :
    Line.err ("[Error] "
        ++ (⟨⟨"bad.frag", false, true, false, 0, 0⟩, ⟨2, "oops"⟩,
            ⟨0, ""⟩⟩ : JobSpec).job.name
        ++ ": "
        ++ (jobResult ⟨⟨"bad.frag", false, true, false, 0, 0⟩, ⟨2, "oops"⟩,
            ⟨0, ""⟩⟩).error)
      ∈ compile_all_shaders [⟨⟨"bad.frag", false, true, false, 0, 0⟩,
          ⟨2, "oops"⟩, ⟨0, ""⟩⟩] :=
  (c5_batch_report_lines [⟨⟨"bad.frag", false, true, false, 0, 0⟩,
      ⟨2, "oops"⟩, ⟨0, ""⟩⟩]).2
    (1, ⟨⟨"bad.frag", false, true, false, 0, 0⟩, ⟨2, "oops"⟩, ⟨0, ""⟩⟩)
    (by decide) (by decide)

/-- Counterexample to C6: after one pending change to `a.vert`, running the
full-recompile command leaves the dict entry of the pending debounce timer in
place — `recompile_all` performs no operation on `self._tasks`. -/
theorem c6_recompile_keeps_pending_timers :
    (recompile_all (runEvents [DEvent.modified "a.vert" 0]) []).timers.tasks
      ≠ [] := by decide

/-- Claim C6 (amended): the full-recompile command (a line reading `R`,
matched case-insensitively after stripping) deletes exactly the `*.spv`
files under the output directory and re-runs the batch with `force = True`;
pending debounce timers are left untouched, not cleared. -/
theorem c6_recompile_all_effects (s : DState) (files : List String) :
    (recompile_all s files).timers = s ∧
    (recompile_all s files).forcedBatch = true ∧
    (∀ f ∈ (recompile_all s files).outputFiles,
      pyEndsWith f ".spv" = false) ∧
    (∀ f ∈ files, pyEndsWith f ".spv" = false →
      f ∈ (recompile_all s files).outputFiles) ∧
    triggers_recompile "R\n" = true := by
  refine ⟨rfl, rfl, ?_, ?_, by decide⟩
  · intro f hf
    have hfil := List.mem_filter.mp hf
    simpa using hfil.2
  · intro f hf hns
    exact List.mem_filter.mpr ⟨hf, by simp [hns]⟩

/-- Witness for C6 (amended): a non-`.spv` file survives the cleanup. -/
theorem c6_recompile_all_effects_witness :
    ("keep.txt" : String) ∈
      (recompile_all dInit ["old.spv", "keep.txt"]).outputFiles :=
  (c6_recompile_all_effects dInit ["old.spv", "keep.txt"]).2.2.2.1 "keep.txt"
    (by decide) (by decide)

/-- Counterexample to C7: `asyncio.gather` does not resolve at the first
completion — with completion times 1, 5 and 2 the shutdown code runs at
time 5, not at the earliest completion time 1. -/
theorem c7_gather_not_first_completion :
    gather3 1 5 2 ≠ min 1 (min 5 2) := by decide

/-- Claim C7 (amended): a termination signal sets the shared stop flag; the
main coroutine proceeds to shutdown only once ALL of the stop-flag wait, the
input task and the status task have completed (`asyncio.gather`), and then
cancels all outstanding timers, discarding — not executing — the queued
compiles. -/
theorem c7_shutdown_after_all_tasks :
    (∀ b : Bool, handle_exit b = true) ∧
    (∀ a b c : Nat,
      a ≤ gather3 a b c ∧ b ≤ gather3 a b c ∧ c ≤ gather3 a b c) ∧
    (∀ evs : List DEvent,
      (cancel_all (runEvents evs)).live = [] ∧
      (cancel_all (runEvents evs)).tasks = [] ∧
      (cancel_all (runEvents evs)).dispatched
        = (runEvents evs).dispatched) := by
  refine ⟨fun b => rfl, ?_, ?_⟩
  · intro a b c
    unfold gather3
    omega
  · intro evs
    exact ⟨cancel_all_live_nil (inv_runEvents evs).1, rfl, rfl⟩

/-- Counterexample to C8: a missing source root that would contain a shader
is silently enumerated as empty — discovery yields zero jobs, the batch
prints nothing and reports no error, indistinguishably from an existing
empty root. -/
theorem c8_missing_root_reports_no_error :
    find_shaders ⟨false, [⟨"a.vert", ".vert"⟩]⟩ = [] ∧
    compile_all_shaders_dir ⟨false, [⟨"a.vert", ".vert"⟩]⟩
      (fun f => ⟨⟨f.name, false, false, false, 0, 0⟩, ⟨0, ""⟩, ⟨0, ""⟩⟩)
      = [] ∧
    compile_all_shaders_dir ⟨false, [⟨"a.vert", ".vert"⟩]⟩
        (fun f => ⟨⟨f.name, false, false, false, 0, 0⟩, ⟨0, ""⟩, ⟨0, ""⟩⟩)
      = compile_all_shaders_dir ⟨true, []⟩
        (fun f => ⟨⟨f.name, false, false, false, 0, 0⟩, ⟨0, ""⟩, ⟨0, ""⟩⟩) :=
  ⟨rfl, rfl, rfl⟩

/-- Claim C8 (amended): a missing or unreadable source root yields zero
discovered shaders and the batch returns immediately with no output and no
error indication — it is not reported as a fatal configuration error. -/
theorem c8_missing_root_zero_jobs (files : List SrcFile)
    (mk : SrcFile → JobSpec) :
    find_shaders ⟨false, files⟩ = [] ∧
    compile_all_shaders_dir ⟨false, files⟩ mk = [] :=
  ⟨rfl, rfl⟩

/-- Claim C9: for every job — stale or fresh — the very first side effect of
`compile_shader` is creating the output directory (with parents), before the
staleness check; a job skipped as up-to-date still performs it. -/
theorem c9_mkdir_always_first (j : ShaderJob) (g o : ProcResult) :
    ((compile_shader j g o).2).head? = some Effect.mkdirOutput := by
  unfold compile_shader
  split_ifs <;> rfl

/-- Claim C10: every compile dispatched by a settled debounce timer passes
`force = False`, so it still goes through the timestamp staleness check and
is skipped with `compiled = false` whenever the output mtime is at least
the source mtime. -/
theorem c10_watch_dispatch_not_forced :
    (∀ evs : List DEvent, ∀ pr ∈ (runEvents evs).dispatched,
      pr.2 = false) ∧
    (∀ (j : ShaderJob) (g o : ProcResult),
      j.force = false → j.outputExists = true →
      j.sourceMtime ≤ j.outputMtime →
      (compile_shader j g o).1 = ⟨false, ""⟩) := by
  constructor
  · intro evs pr hpr
    exact (inv_runEvents evs).2.2.2.2.2 pr hpr
  · intro j g o h1 h2 h3
    unfold compile_shader
    rw [if_pos ⟨h1, h2, h3⟩]

/-- Witness for C10: a dispatched compile in a concrete run carries
`force = false`, and a fresher output (mtime 9 against source mtime 4) is
skipped. -/
theorem c10_watch_dispatch_not_forced_witness :
    (("a.vert", false) : String × Bool).2 = false ∧
    (compile_shader ⟨"a.vert", false, false, true, 9, 4⟩ ⟨0, ""⟩
      ⟨0, ""⟩).1 = ⟨false, ""⟩ :=
  ⟨c10_watch_dispatch_not_forced.1
      [DEvent.modified "a.vert" 0, DEvent.modified "b.vert" 1000]
      ("a.vert", false) (by decide),
   c10_watch_dispatch_not_forced.2 ⟨"a.vert", false, false, true, 9, 4⟩
      ⟨0, ""⟩ ⟨0, ""⟩ rfl rfl (by decide)⟩

end ShaderScripts
